import Mathlib

/-!
Verification of the envire environment-graph engine (planthaber/slam-envire)
against its natural-language specification.

The development shallowly embeds the parts of `src/src/Core.hpp`,
`src/tools/env_grid_to_mls.cpp` and the surrounding engine that the claims
talk about.  Machine integers are modelled as `Nat`/`Int`, `std::map`
iteration as iteration over a key-sorted association list, C++ exceptions as
`Except`, and rigid 3D transforms as rotation matrix + translation over `ℚ`
(exact arithmetic in place of IEEE doubles).  Where a method body is not part
of the source tree (only its declaration and documentation are), the
definition is modelled from the specification and marked as such in its doc
comment.
-/

namespace Envire

/-- Structured error kinds surfaced by the engine (spec §7). -/
inductive EnvError where
  | NotFound
  | Ambiguous
  | TypeMismatch
  | IdCollision
  deriving DecidableEq, Repr

/-! ## Dynamic classes and the C++ class hierarchy

Concrete item classes present in the source tree, together with the
inheritance chains declared in `Core.hpp`, `operators/MLSSlope.hpp` and
`maps/Pointcloud.cpp`:
`FrameNode : EnvironmentItem`, `Layer : EnvironmentItem`,
`CartesianMap : Layer`, `Pointcloud : CartesianMap` (via `Map<3>`),
`Operator : EnvironmentItem`, `MLSSlope : Operator`. -/

inductive DynClass where
  | environmentItem
  | frameNode
  | layer
  | cartesianMapC
  | pointcloudC
  | operatorC
  | mlsSlopeC
  deriving DecidableEq, Repr

/-- The inheritance chain of a dynamic class, from the class itself up to
`EnvironmentItem`, read off the class declarations in the source. -/
def DynClass.ancestorsOf : DynClass → List DynClass
  | .environmentItem => [.environmentItem]
  | .frameNode => [.frameNode, .environmentItem]
  | .layer => [.layer, .environmentItem]
  | .cartesianMapC => [.cartesianMapC, .layer, .environmentItem]
  | .pointcloudC => [.pointcloudC, .cartesianMapC, .layer, .environmentItem]
  | .operatorC => [.operatorC, .environmentItem]
  | .mlsSlopeC => [.mlsSlopeC, .operatorC, .environmentItem]

/-- `isA c t` models the success of C++ `dynamic_cast<t*>` on an object of
dynamic class `c`: it succeeds exactly when `t` occurs on `c`'s inheritance
chain. -/
def DynClass.isA (c t : DynClass) : Bool :=
  (DynClass.ancestorsOf c).contains t

/-- The classes generated by the `ENVIRONMENT_ITEM` macro in the source tree:
`FrameNode` (Core.hpp:248), `MLSSlope` (MLSSlope.hpp:22) and `Pointcloud`
(Pointcloud.cpp:9 via `ENVIRONMENT_ITEM_DEF`). -/
def DynClass.isMacroItem : DynClass → Bool
  | .frameNode => true
  | .pointcloudC => true
  | .mlsSlopeC => true
  | _ => false

/-! ## C10: the `ENVIRONMENT_ITEM` macro's `set`

`Core.hpp:29-36`: `set(other)` performs `dynamic_cast<_classname*>(other)`;
on success it assigns through `operator=`, on failure it does nothing and
raises no error. -/

/-- State of an environment item: its dynamic class plus its data fields,
abstracted into a single payload. -/
structure ItemState where
  cls : DynClass
  payload : Nat
  deriving DecidableEq, Repr

/-- `Core.hpp:29-36`, the `set` member generated by `ENVIRONMENT_ITEM` for
class `c`: assign from `other` if the dynamic cast to `c` succeeds, else
leave the receiver unchanged.  The function is total: no error is raised. -/
def macroSet (c : DynClass) (self other : ItemState) : ItemState :=
  if DynClass.isA other.cls c then { self with payload := other.payload }
  else self

/-! ## C2: `Layer::getData<T>` (Core.hpp:463-485)

The metadata dictionary maps string keys to type-erased holders.  The holder
type (`Holder.hpp`) is not part of the source tree; its typed accessor
`get<T>` is modelled from the spec. -/

/-- Runtime type tags for metadata holders. -/
inductive DataType where
  | natT
  | boolT
  deriving DecidableEq, Repr

/-- A type-erased held value; its constructor is its runtime type tag. -/
inductive DataVal where
  | natV (n : Nat)
  | boolV (b : Bool)
  deriving DecidableEq, Repr

/-- The runtime type reported by a holder. -/
def DataVal.typeOf : DataVal → DataType
  | .natV _ => .natT
  | .boolV _ => .boolT

/-- The default-constructed value of each holder type. -/
def DataType.defaultVal : DataType → DataVal
  | .natT => .natV 0
  | .boolT => .boolV false

/-- The layer metadata dictionary (`Layer::data_map`, Core.hpp:346-349). -/
abbrev DataMap := List (String × DataVal)

/-- `Core.hpp:445` (non-template `hasData`): true when an entry for the key
exists, regardless of its type. -/
def hasDataKey (m : DataMap) (key : String) : Bool :=
  (List.lookup key m).isSome

/-- Modelled from the spec: `HolderBase::get<T>` (the holder header is not in
the source tree).  Per spec §4.3 the typed accessor fails with
`TypeMismatch` when the holder reports a type different from `T`. -/
def holderGet (v : DataVal) (t : DataType) : Except EnvError DataVal :=
  if DataVal.typeOf v = t then .ok v else .error .TypeMismatch

/-- `Layer::getData<T>` (Core.hpp:463-485, non-const): if no entry exists for
the key, insert a default-constructed `Holder<T>`; then return the held value
through the typed accessor.  Returns the value together with the updated
metadata dictionary. -/
def getData (m : DataMap) (key : String) (t : DataType) :
    Except EnvError (DataVal × DataMap) :=
  let m2 : DataMap := if hasDataKey m key then m else (key, DataType.defaultVal t) :: m
  match List.lookup key m2 with
  | none => .error .TypeMismatch
  | some v =>
    match holderGet v t with
    | .ok w => .ok (w, m2)
    | .error e => .error e

/-! ## C4: id minting for trailing-slash ids

The body of `Environment::attachItem` is not in the source tree; the id rules
are modelled from the spec (§3 "Unique id") and the class comment
Core.hpp:61-71, using the id shape `<base>[<numeric-suffix>]`. -/

/-- A final unique id: the caller-supplied base string plus the optional
numeric suffix minted by the environment (Core.hpp:61-71). -/
structure UId where
  base : String
  num : Option Nat
  deriving DecidableEq, Repr

/-- The id-relevant slice of an environment: the `last_id` counter
(Core.hpp:738-740) and the set of ids already attached. -/
structure IdStore where
  last_id : Nat
  ids : List UId
  deriving DecidableEq, Repr

/-- Whether an id string ends in the `/` separator (the trailing-slash test
of Core.hpp:66-69). -/
def endsWithSlash (s : String) : Bool :=
  s.data.getLast? == some '/'

/-- Modelled from the spec (§3, Core.hpp:61-71; `Environment::attachItem`'s
body is not in the source tree): if the caller id ends in `/`, append the
fresh `last_id` counter value as numeric suffix and bump the counter;
otherwise take the id verbatim, failing on collision. -/
def attachMint (e : IdStore) (callerId : String) :
    Except EnvError (UId × IdStore) :=
  if endsWithSlash callerId then
    let uid : UId := ⟨callerId, some e.last_id⟩
    .ok (uid, ⟨e.last_id + 1, uid :: e.ids⟩)
  else
    let uid : UId := ⟨callerId, none⟩
    if e.ids.contains uid then .error .IdCollision
    else .ok (uid, ⟨e.last_id, uid :: e.ids⟩)

/-! ## C8: the `env_grid_to_mls` tool (tools/env_grid_to_mls.cpp)

`main` exits 1 via `usage(1)` when `argc != 4` (lines 20-24) and returns 0 on
success (line 39).  No other `exit` call and no try/catch exist in the file:
failures of `lexical_cast`, `Environment::unserialize`, `getItem` or the
operator wiring propagate as uncaught C++ exceptions or crashes. -/

/-- Outcome of running the tool's process. -/
inductive ToolOutcome where
  | exitCode (n : Nat)
  | abnormal
  deriving DecidableEq, Repr

/-- `tools/env_grid_to_mls.cpp:18-40`: the exit behaviour of `main`, with the
fallible environment steps (unserialize, item lookup, operator update)
abstracted into success flags.  There is no handler around them, so any
failure terminates the process abnormally rather than with an exit code. -/
def envGridToMlsMain (argc : Nat) (loadOk gridOk mlsOk : Bool) : ToolOutcome :=
  if argc ≠ 4 then .exitCode 1
  else if ¬loadOk then .abnormal
  else if ¬gridOk then .abnormal
  else if ¬mlsOk then .abnormal
  else .exitCode 0

/-! ## C7: `Environment::attachItem(CartesianMap*, FrameNode* = 0)`

Declared Core.hpp:774-778: "If the map does not yet have a frame node, and
none is given in this call, it is automatically attached to the root node".
The body is not in the source tree; modelled from this comment and spec
§4.1. -/

/-- The map-attachment slice of an environment: the attached item ids, the
`cartesianMapGraph` (map id → frame id, Core.hpp:749/756) and the root frame
node. -/
structure MapEnv where
  attached : List String
  mapFrame : List (String × Nat)
  root : Nat
  deriving DecidableEq, Repr

/-- `Environment::setFrameNode` (declared Core.hpp:859): establish or replace
the map's entry in the `cartesianMapGraph`. -/
def setFrameNode (e : MapEnv) (mapId : String) (node : Nat) : MapEnv :=
  { e with mapFrame := (mapId, node) :: e.mapFrame.filter (fun p => p.1 ≠ mapId) }

/-- Modelled from the spec (§4.1) and the declaration comment
Core.hpp:774-778 (the body is not in the source tree): attach the item, then
bind it to the given frame node, or — when none is given and the map has no
frame node yet — to the root node. -/
def attachCartesianMap (e : MapEnv) (mapId : String) (node : Option Nat) : MapEnv :=
  let e2 := { e with attached := e.attached ++ [mapId] }
  match node with
  | some n => setFrameNode e2 mapId n
  | none =>
    if (List.lookup mapId e2.mapFrame).isSome then e2
    else setFrameNode e2 mapId e2.root

/-! ## The typed item store (C3, C6)

`Environment::items` is a `std::map<std::string, EnvironmentItem::Ptr>`
(Core.hpp:745,751): iteration visits entries in ascending lexicographic key
order, not in insertion order.  We keep the attach history as a list and
model the `std::map` contents as that list sorted by key. -/

/-- An attached environment item: dynamic class plus a distinguishing label
(standing for the item's data). -/
structure EItem where
  cls : DynClass
  label : String
  deriving DecidableEq, Repr

/-- Lexicographic order on id strings (the `std::map<std::string, ...>` key
comparison), stated on the underlying character lists. -/
def idLE (a b : String) : Prop := a.data ≤ b.data

instance : DecidableRel idLE := fun a b => inferInstanceAs (Decidable (a.data ≤ b.data))

instance : IsTotal String idLE := ⟨fun a b => le_total a.data b.data⟩

instance : IsTrans String idLE := ⟨fun _ _ _ h h2 => le_trans h h2⟩

/-- Key order on id/item entries. -/
def keyLE (a b : String × EItem) : Prop := idLE a.1 b.1

instance : DecidableRel keyLE := fun a b => inferInstanceAs (Decidable (idLE a.1 b.1))

instance : IsTotal (String × EItem) keyLE := ⟨fun a b => IsTotal.total (r := idLE) a.1 b.1⟩

instance : IsTrans (String × EItem) keyLE :=
  ⟨fun _ _ _ h h2 => Trans.trans (r := idLE) (s := idLE) h h2⟩

/-- The item store of an environment: the `(id, item)` pairs in the order in
which they were attached. -/
structure ItemStore where
  attachList : List (String × EItem)

/-- The contents of the `items` `std::map` in iteration order: the attached
entries sorted by key (Core.hpp:745). -/
def ItemStore.itemsInMapOrder (e : ItemStore) : List (String × EItem) :=
  e.attachList.insertionSort keyLE

/-- `Environment::getItems<T>` (Core.hpp:1012-1024): iterate the `items` map
and keep the entries whose `dynamic_cast<T*>` succeeds. -/
def ItemStore.getItems (e : ItemStore) (t : DynClass) : List EItem :=
  (ItemStore.itemsInMapOrder e).filterMap
    (fun p => if DynClass.isA p.2.cls t then some p.2 else none)

/-- The result the claim predicts for `getItems<T>`: the matching items in
insertion (attach) order.  This is the spec-side definition used to compare
against the source's map-order iteration. -/
def ItemStore.getItemsClaimInsertionOrder (e : ItemStore) (t : DynClass) : List EItem :=
  e.attachList.filterMap
    (fun p => if DynClass.isA p.2.cls t then some p.2 else none)

/-- The loop of `Environment::getItem<T>()` (Core.hpp:815-833): walk the map
entries keeping the unique match; a second match raises the ambiguity
error. -/
def findUnique (t : DynClass) :
    List (String × EItem) → Option EItem → Except EnvError (Option EItem)
  | [], acc => .ok acc
  | p :: rest, acc =>
    if DynClass.isA p.2.cls t then
      match acc with
      | some _ => .error .Ambiguous
      | none => findUnique t rest (some p.2)
    else findUnique t rest acc

/-- `Environment::getItem<T>()` (Core.hpp:815-833): return the unique item of
the requested type; throw if there are several matches (`Ambiguous`) or none
(`NotFound`). -/
def ItemStore.getItem (e : ItemStore) (t : DynClass) : Except EnvError EItem :=
  match findUnique t (ItemStore.itemsInMapOrder e) none with
  | .error err => .error err
  | .ok none => .error .NotFound
  | .ok (some it) => .ok it

/-! ## The operator update driver (C1)

`Environment::updateOperators` is declared Core.hpp:982; its body is not in
the source tree.  It is modelled from the spec: §4.4 ("runs `update_all` on
each operator whose outputs contain at least one dirty layer"; "after a
successful run, the operator clears the dirty flag on its outputs"; "an
operator that returns failure leaves its outputs dirty") together with §9's
description of the source ("the source loops but does not sort"): the loop
visits the operators coming from `getItems<Operator>()`, i.e. in the `items`
map's ascending-id order (Core.hpp:1012-1024). -/

/-- The operator-graph slice of an environment: operator ids in attach
order, the output and input multimaps (`operatorGraphOutput` /
`operatorGraphInput`, Core.hpp:754-755) and the layers' dirty flags. -/
structure OpGraph where
  opIds : List String
  outputs : String → List String
  inputs : String → List String
  dirty : String → Bool

/-- Modelled from the spec (§4.4, §9; the body of
`Environment::updateOperators` is not in the source tree): visit the given
operators in order; when an operator has a dirty output, run its
`update_all` (outcome given by `upd`) and, on success, clear the dirty flag
of its outputs.  Returns the operators that were run and the final dirty
flags. -/
def runLoop (outputs : String → List String) (upd : String → Bool) :
    List String → (String → Bool) → List String × (String → Bool)
  | [], d => ([], d)
  | o :: rest, d =>
    if (outputs o).any d then
      let d2 : String → Bool :=
        if upd o then (fun l => if (outputs o).contains l then false else d l) else d
      let r := runLoop outputs upd rest d2
      (o :: r.1, r.2)
    else runLoop outputs upd rest d

/-- Modelled from the spec (§4.4, §9): `Environment::updateOperators` loops
over `getItems<Operator>()` — the operators in ascending unique-id order —
without topological sorting. -/
def OpGraph.updateOperators (g : OpGraph) (upd : String → Bool) :
    List String × (String → Bool) :=
  runLoop g.outputs upd (g.opIds.insertionSort idLE) g.dirty

/-- A layer edge from operator `a` to operator `b`: some output layer of `a`
is an input layer of `b`, so `b` consumes data generated by `a`. -/
def OpGraph.feedsInto (g : OpGraph) (a b : String) : Bool :=
  (g.outputs a).any (fun l => (g.inputs b).contains l)

/-- The claim's ordering requirement on a run sequence: whenever operator
`a` feeds into operator `b`, `a` is not run after `b`.  This is the
spec-side definition of "topological order over the operator graph". -/
def OpGraph.claimTopoOrdered (g : OpGraph) : List String → Bool
  | [] => true
  | x :: rest =>
    rest.all (fun y => !(OpGraph.feedsInto g y x)) && OpGraph.claimTopoOrdered g rest

/-- A concrete two-operator graph: operator `"/b"` (attached first)
generates layer `"L1"`, which operator `"/a"` consumes to generate layer
`"L2"`; both layers start dirty and both operators succeed.  Any
topological order must run `"/b"` before `"/a"`, while the `items` map
iterates `"/a"` first. -/
def opGraphX : OpGraph where
  opIds := ["/b", "/a"]
  outputs := fun o => if o = "/b" then ["L1"] else if o = "/a" then ["L2"] else []
  inputs := fun o => if o = "/a" then ["L1"] else []
  dirty := fun l => l == "L1" || l == "L2"

/-! ## Transforms and the frame tree (C5, C9)

`Transform` is a rigid 3D transform (spec §3; `envire/core/Transform.hpp` is
not in the source tree).  We model it exactly over `ℚ` as a rotation matrix
plus a translation; composition and inversion follow the affine-transform
algebra used by the source (`Eigen::Affine3d`). -/

/-- 3×3 matrices over exact rationals. -/
abbrev Mat3 := Matrix (Fin 3) (Fin 3) ℚ

/-- 3-vectors over exact rationals. -/
abbrev Vec3 := Fin 3 → ℚ

/-- A rigid 3D transform: rotation part and translation part. -/
structure Transform where
  R : Mat3
  t : Vec3
  deriving DecidableEq

/-- Composition of affine transforms: `(a.comp b) p = a (b p)`. -/
def Transform.comp (a b : Transform) : Transform :=
  ⟨a.R * b.R, a.R.mulVec b.t + a.t⟩

/-- The identity transform. -/
def Transform.id3 : Transform := ⟨1, 0⟩

/-- The inverse of a rigid transform, using the orthogonality of the
rotation part: `(R, t)⁻¹ = (Rᵀ, -Rᵀ t)`. -/
def Transform.inv (a : Transform) : Transform :=
  ⟨a.R.transpose, -(a.R.transpose.mulVec a.t)⟩

/-- Application of a transform to a point. -/
def Transform.apply (a : Transform) (p : Vec3) : Vec3 :=
  a.R.mulVec p + a.t

/-- Rigidity: the rotation part is orthogonal. -/
def Transform.IsRigid (a : Transform) : Prop :=
  a.R.transpose * a.R = 1

/-- The frame tree of an environment: nodes are `0, …, n-1`, the
`frameNodeTree` child→parent map (Core.hpp:746,752) and each node's
transform to its parent (Core.hpp:331, `FrameNode::frame`).  The root is
node `0`.  Well-formedness (`FrameTree.wfb`) requires each parent index to
be smaller than its child — a labelling every finite tree admits. -/
structure FrameTree where
  n : Nat
  parent : Nat → Option Nat
  transf : Nat → Transform

/-- The chain of ancestors of `x`: `x`, its parent, …, up to the root,
computed with explicit fuel. -/
def ancChain (ft : FrameTree) : Nat → Nat → List Nat
  | 0, x => [x]
  | fuel + 1, x =>
    x :: (match ft.parent x with
          | none => []
          | some p => ancChain ft fuel p)

/-- The common-ancestor search of `Environment::relativeTransform`
(modelled from spec §4.2; the body is not in the source tree): the first
node on `from`'s ancestor chain that also lies on `to`'s ancestor chain.
When either node lies on the other's path it is itself found as the common
ancestor (the spec's tie-break). -/
def findLCA (ft : FrameTree) (a b : Nat) : Option Nat :=
  (ancChain ft ft.n a).find? (fun x => (ancChain ft ft.n b).contains x)

/-- The composed child-to-parent transform from `x` up to its ancestor
`anc`: `T(x→anc)`, computed with explicit fuel. -/
def upT (ft : FrameTree) : Nat → Nat → Nat → Transform
  | 0, _, _ => Transform.id3
  | fuel + 1, x, anc =>
    if x = anc then Transform.id3
    else
      match ft.parent x with
      | none => Transform.id3
      | some p => Transform.comp (upT ft fuel p anc) (ft.transf x)

/-- Modelled from spec §4.2 (the body of `Environment::relativeTransform`,
declared Core.hpp:1044, is not in the source tree): the transform mapping
coordinates in `from` to coordinates in `to`, obtained by walking both
paths to the common ancestor, composing child-to-parent transforms up from
`from` and inverse-composing down to `to`.  `none` models the failure case
of frames not related through the tree. -/
def relativeTransform (ft : FrameTree) (a b : Nat) : Option Transform :=
  match findLCA ft a b with
  | none => none
  | some l => some (Transform.comp (Transform.inv (upT ft ft.n b l)) (upT ft ft.n a l))

/-- `FrameNode::getRoot` (declared Core.hpp:280-285): the last node of the
ancestor chain. -/
def rootNode (ft : FrameTree) (x : Nat) : Nat :=
  (ancChain ft ft.n x).getLast?.getD x

/-- Well-formedness of a frame tree: node `0` is the root, parents precede
their children (a labelling every finite tree admits), only the root is
parentless, and every stored transform is rigid. -/
structure FrameTree.WF (ft : FrameTree) : Prop where
  root_parent : ft.parent 0 = none
  parent_lt : ∀ x, x < ft.n → ∀ p, ft.parent x = some p → p < x
  none_is_root : ∀ x, x < ft.n → ft.parent x = none → x = 0
  rigid : ∀ x, x < ft.n → (ft.transf x).IsRigid

/-- A cartesian map attached to a frame node (C9): only the attached frame
matters for the coordinate conversions. -/
structure MapM where
  frame : Nat

/-- `Map::toMap(point, frame)` (Core.hpp:591-594): transform a point given
in `frame`'s coordinates into the map's own frame,
`frame.relativeTransform(getFrameNode()) * point`. -/
def toMapFrom (ft : FrameTree) (m : MapM) (p : Vec3) (frame : Nat) : Option Vec3 :=
  (relativeTransform ft frame m.frame).map (fun tr => Transform.apply tr p)

/-- `Map::toMap(point)` (Core.hpp:582-585): the one-argument overload uses
the root frame as the point's frame. -/
def toMapRoot (ft : FrameTree) (m : MapM) (p : Vec3) : Option Vec3 :=
  toMapFrom ft m p (rootNode ft m.frame)

/-- `Map::fromMap(point, frame)` (Core.hpp:609-612): transform a point from
the map's own frame into `frame`'s coordinates,
`getFrameNode()->relativeTransform(&frame) * point`. -/
def fromMapTo (ft : FrameTree) (m : MapM) (p : Vec3) (frame : Nat) : Option Vec3 :=
  (relativeTransform ft m.frame frame).map (fun tr => Transform.apply tr p)

/-- `Map::fromMap(point)` (Core.hpp:600-603): the one-argument overload —
as written in the source it delegates to `toMap(point, root)`, not to the
two-argument `fromMap`. -/
def fromMapRoot (ft : FrameTree) (m : MapM) (p : Vec3) : Option Vec3 :=
  toMapFrom ft m p (rootNode ft m.frame)

/-- A concrete three-frame chain `0 ← 1 ← 2` with identity rotations and
unit translations along the first two axes. -/
def ft3 : FrameTree where
  n := 3
  parent := fun x => if x = 1 then some 0 else if x = 2 then some 1 else none
  transf := fun x =>
    if x = 1 then ⟨1, fun i => if i = 0 then 1 else 0⟩
    else if x = 2 then ⟨1, fun i => if i = 1 then 1 else 0⟩
    else ⟨1, 0⟩

/-- A concrete two-frame chain `0 ← 1` whose child frame is shifted by one
unit along the first axis. -/
def ftC9 : FrameTree where
  n := 2
  parent := fun x => if x = 1 then some 0 else none
  transf := fun _ => ⟨1, fun i => if i = 0 then 1 else 0⟩

/-- A cartesian map attached to frame `1` of `ftC9`. -/
def mC9 : MapM := ⟨1⟩

/-! # Theorems -/

/-! Helper lemmas about the item-store loops. -/

theorem filterMap_matching_eq (t : DynClass) (l : List (String × EItem)) :
    l.filterMap (fun p => if DynClass.isA p.2.cls t then some p.2 else none) =
      (l.filter (fun p => DynClass.isA p.2.cls t)).map Prod.snd := by
  induction l with
  | nil => rfl
  | cons p rest ih =>
    cases h : DynClass.isA p.2.cls t <;> simp [h, ih, List.filter_cons]

theorem findUnique_some_of_nil (t : DynClass) (l : List (String × EItem)) (x : EItem)
    (h : l.filter (fun p => DynClass.isA p.2.cls t) = []) :
    findUnique t l (some x) = .ok (some x) := by
  induction l with
  | nil => rfl
  | cons p rest ih =>
    rw [List.filter_cons] at h
    cases hp : DynClass.isA p.2.cls t
    · rw [if_neg (by simp [hp])] at h
      simp [findUnique, hp, ih h]
    · rw [if_pos (by simp [hp])] at h
      exact absurd h (List.cons_ne_nil _ _)

theorem findUnique_some_of_ne_nil (t : DynClass) (l : List (String × EItem)) (x : EItem)
    (h : l.filter (fun p => DynClass.isA p.2.cls t) ≠ []) :
    findUnique t l (some x) = .error .Ambiguous := by
  induction l with
  | nil => exact absurd rfl h
  | cons p rest ih =>
    cases hp : DynClass.isA p.2.cls t
    · have h2 : rest.filter (fun p => DynClass.isA p.2.cls t) ≠ [] := by
        rw [List.filter_cons, if_neg (by simp [hp])] at h
        exact h
      simp [findUnique, hp, ih h2]
    · simp [findUnique, hp]

theorem findUnique_none_eq (t : DynClass) (l : List (String × EItem)) :
    findUnique t l none =
      match (l.filter (fun p => DynClass.isA p.2.cls t)).map Prod.snd with
      | [] => .ok none
      | [x] => .ok (some x)
      | _ :: _ :: _ => .error .Ambiguous := by
  induction l with
  | nil => rfl
  | cons p rest ih =>
    cases hp : DynClass.isA p.2.cls t
    · have hf : (p :: rest).filter (fun p => DynClass.isA p.2.cls t) =
          rest.filter (fun p => DynClass.isA p.2.cls t) := by
        rw [List.filter_cons, if_neg (by simp [hp])]
      have hl : findUnique t (p :: rest) none = findUnique t rest none := by
        simp [findUnique, hp]
      rw [hl, hf]
      exact ih
    · have hf : (p :: rest).filter (fun p => DynClass.isA p.2.cls t) =
          p :: rest.filter (fun p => DynClass.isA p.2.cls t) := by
        rw [List.filter_cons, if_pos (by simp [hp])]
      have hl : findUnique t (p :: rest) none = findUnique t rest (some p.2) := by
        simp [findUnique, hp]
      rw [hl, hf]
      cases hrest : rest.filter (fun p => DynClass.isA p.2.cls t) with
      | nil =>
        rw [findUnique_some_of_nil t rest p.2 hrest]
        rfl
      | cons q l2 =>
        rw [findUnique_some_of_ne_nil t rest p.2 (by simp [hrest])]
        rfl

/-- C10: for every item type generated by the `ENVIRONMENT_ITEM` macro,
`set(other)` leaves the receiver entirely unchanged (and raises no error —
`macroSet` is a total function with no error channel) whenever the dynamic
class of `other` is not the item's class.  In the source tree's class
hierarchy no macro-generated class derives from another, so the dynamic
cast in the macro's `set` fails exactly on class inequality. -/
theorem C10_macroSet_noop (c : DynClass) (self other : ItemState)
    (hmac : DynClass.isMacroItem c = true) (hne : other.cls ≠ c) :
    macroSet c self other = self := by
  have hcast : DynClass.isA other.cls c = false := by
    revert hmac hne
    cases other.cls <;> cases c <;> decide
  simp [macroSet, hcast]

/-- Witness for C10 at a concrete input: a `FrameNode` receiver and a
`Layer` argument. -/
theorem C10_macroSet_noop_witness :
    DynClass.isMacroItem .frameNode = true ∧
    (ItemState.mk .layer 5).cls ≠ DynClass.frameNode ∧
    macroSet .frameNode ⟨.frameNode, 3⟩ ⟨.layer, 5⟩ = ⟨.frameNode, 3⟩ :=
  ⟨by decide, by decide,
    C10_macroSet_noop .frameNode ⟨.frameNode, 3⟩ ⟨.layer, 5⟩ (by decide) (by decide)⟩

/-- C2: the non-const `Layer::getData<T>(key)` creates and returns a
default-constructed holder when no metadata exists for the key, and fails
with `TypeMismatch` when an existing holder for that key reports a type
different from `T`. -/
theorem C2_getData_spec (m : DataMap) (key : String) (t : DataType) :
    (List.lookup key m = none →
      getData m key t = .ok (DataType.defaultVal t, (key, DataType.defaultVal t) :: m)) ∧
    (∀ v, List.lookup key m = some v → DataVal.typeOf v ≠ t →
      getData m key t = .error .TypeMismatch) := by
  constructor
  · intro h
    have hd : DataVal.typeOf (DataType.defaultVal t) = t := by cases t <;> rfl
    simp [getData, hasDataKey, h, List.lookup, holderGet, hd]
  · intro v hv hne
    have hk : hasDataKey m key = true := by simp [hasDataKey, hv]
    simp [getData, hk, hv, holderGet, hne]

/-- Witness for C2 at concrete inputs: a miss on an empty dictionary, and a
hit on a `bool` holder queried at type `nat`. -/
theorem C2_getData_spec_witness :
    getData [] "a" .natT = .ok (.natV 0, [("a", .natV 0)]) ∧
    getData [("b", .boolV true)] "b" .natT = .error .TypeMismatch :=
  ⟨(C2_getData_spec [] "a" .natT).1 rfl,
   (C2_getData_spec [("b", .boolV true)] "b" .natT).2 (.boolV true) rfl (by decide)⟩

/-- C4: attaching an item whose caller-supplied id ends in `/` appends the
fresh `last_id` counter value as numeric suffix; attaching the same
trailing-slash id twice yields suffixes `last_id` and `last_id + 1` —
distinct and monotonically increasing — so the two final ids differ. -/
theorem C4_trailing_slash_mint (e : IdStore) (cid : String)
    (h : endsWithSlash cid = true) :
    attachMint e cid =
      .ok (⟨cid, some e.last_id⟩, ⟨e.last_id + 1, ⟨cid, some e.last_id⟩ :: e.ids⟩) ∧
    attachMint ⟨e.last_id + 1, ⟨cid, some e.last_id⟩ :: e.ids⟩ cid =
      .ok (⟨cid, some (e.last_id + 1)⟩,
           ⟨e.last_id + 2, ⟨cid, some (e.last_id + 1)⟩ :: ⟨cid, some e.last_id⟩ :: e.ids⟩) ∧
    (⟨cid, some e.last_id⟩ : UId) ≠ ⟨cid, some (e.last_id + 1)⟩ ∧
    e.last_id < e.last_id + 1 := by
  refine ⟨by simp [attachMint, h], by simp [attachMint, h], by simp, Nat.lt_succ_self _⟩

/-- Witness for C4 at a concrete input: attaching `"foo/"` twice to a fresh
id store yields suffixes `0` and `1`. -/
theorem C4_trailing_slash_mint_witness :
    attachMint ⟨0, []⟩ "foo/" = .ok (⟨"foo/", some 0⟩, ⟨1, [⟨"foo/", some 0⟩]⟩) ∧
    attachMint ⟨1, [⟨"foo/", some 0⟩]⟩ "foo/" =
      .ok (⟨"foo/", some 1⟩, ⟨2, [⟨"foo/", some 1⟩, ⟨"foo/", some 0⟩]⟩) ∧
    (⟨"foo/", some 0⟩ : UId) ≠ ⟨"foo/", some 1⟩ ∧
    (0 : Nat) < 1 :=
  C4_trailing_slash_mint ⟨0, []⟩ "foo/" (by decide)

/-- C7: attaching a cartesian map with the frame argument omitted binds the
map to the environment's root frame (the map, being freshly attached, has
no frame-node binding yet). -/
theorem C7_attach_default_root (e : MapEnv) (mapId : String)
    (h : List.lookup mapId e.mapFrame = none) :
    List.lookup mapId (attachCartesianMap e mapId none).mapFrame = some e.root := by
  simp [attachCartesianMap, setFrameNode, h, List.lookup]

/-- Witness for C7 at a concrete input: an empty environment with root
frame `0`. -/
theorem C7_attach_default_root_witness :
    List.lookup "m" (attachCartesianMap ⟨[], [], 0⟩ "m" none).mapFrame = some 0 :=
  C7_attach_default_root ⟨[], [], 0⟩ "m" rfl

/-- C8 counterexample: at `argc = 4` with a failing environment load, the
tool terminates abnormally (there is no try/catch and no `exit(2)` call in
`tools/env_grid_to_mls.cpp`), contradicting the claimed exit code 2 on
environment error. -/
theorem C8_counterexample :
    envGridToMlsMain 4 false true true = ToolOutcome.abnormal ∧
    envGridToMlsMain 4 false true true ≠ ToolOutcome.exitCode 2 := by
  decide

/-- C8 (amended): the tool exits with code 0 on success and code 1 on a
wrong argument count; an environment error makes it terminate abnormally
through an uncaught exception, and no code path exits with code 2. -/
theorem C8_exit_codes (argc : Nat) (loadOk gridOk mlsOk : Bool) :
    (argc ≠ 4 → envGridToMlsMain argc loadOk gridOk mlsOk = .exitCode 1) ∧
    (argc = 4 → loadOk = true → gridOk = true → mlsOk = true →
      envGridToMlsMain argc loadOk gridOk mlsOk = .exitCode 0) ∧
    (argc = 4 → (loadOk = false ∨ gridOk = false ∨ mlsOk = false) →
      envGridToMlsMain argc loadOk gridOk mlsOk = .abnormal) ∧
    (∀ n, envGridToMlsMain argc loadOk gridOk mlsOk = .exitCode n → n = 0 ∨ n = 1) := by
  by_cases h : argc = 4 <;> cases loadOk <;> cases gridOk <;> cases mlsOk <;>
    simp [envGridToMlsMain, h]

/-- Witness for C8 at concrete inputs: wrong argument count, a successful
run, and a failing environment load. -/
theorem C8_exit_codes_witness :
    envGridToMlsMain 3 true true true = .exitCode 1 ∧
    envGridToMlsMain 4 true true true = .exitCode 0 ∧
    envGridToMlsMain 4 false true true = .abnormal :=
  ⟨(C8_exit_codes 3 true true true).1 (by decide),
   (C8_exit_codes 4 true true true).2.1 rfl rfl rfl rfl,
   (C8_exit_codes 4 false true true).2.2.1 rfl (Or.inl rfl)⟩

/-- C6 counterexample: with item `"/b"` attached before item `"/a"`,
`getItems<Layer>` returns the items in ascending-id map order
(`A` before `B`), not in insertion (attach) order (`B` before `A`):
the claim's ordering assertion fails at this input. -/
theorem C6_counterexample :
    ItemStore.getItems ⟨[("/b", ⟨.layer, "B"⟩), ("/a", ⟨.layer, "A"⟩)]⟩ .layer ≠
      ItemStore.getItemsClaimInsertionOrder
        ⟨[("/b", ⟨.layer, "B"⟩), ("/a", ⟨.layer, "A"⟩)]⟩ .layer := by
  decide

/-- C6 (amended): `getItems<T>()` returns exactly the attached items of
type `T` (a permutation of the insertion-order matches), but in ascending
lexicographic order of unique id — the iteration order of the `items`
`std::map` — rather than in insertion order. -/
theorem C6_getItems_sorted_by_id (e : ItemStore) (t : DynClass) :
    (ItemStore.getItems e t).Perm (ItemStore.getItemsClaimInsertionOrder e t) ∧
    ((ItemStore.itemsInMapOrder e).map Prod.fst).Pairwise idLE := by
  constructor
  · exact List.Perm.filterMap _ (List.perm_insertionSort keyLE e.attachList)
  · exact List.Pairwise.map Prod.fst (fun _ _ h => h)
      (List.sorted_insertionSort keyLE e.attachList)

/-- C3: `getItem<T>()` fails with `Ambiguous` when more than one attached
item has type `T`, fails with `NotFound` when none has, and otherwise
returns the unique attached item of type `T`. -/
theorem C3_getItem_spec (e : ItemStore) (t : DynClass) :
    (2 ≤ (e.attachList.filter (fun p => DynClass.isA p.2.cls t)).length →
      ItemStore.getItem e t = .error .Ambiguous) ∧
    ((e.attachList.filter (fun p => DynClass.isA p.2.cls t)).length = 0 →
      ItemStore.getItem e t = .error .NotFound) ∧
    ((e.attachList.filter (fun p => DynClass.isA p.2.cls t)).length = 1 →
      ∃ x, ItemStore.getItem e t = .ok x ∧ DynClass.isA x.cls t = true ∧
        ∃ id, (id, x) ∈ e.attachList) := by
  have hperm : ((ItemStore.itemsInMapOrder e).filter
      (fun p => DynClass.isA p.2.cls t)).Perm
      (e.attachList.filter (fun p => DynClass.isA p.2.cls t)) :=
    List.Perm.filter _ (List.perm_insertionSort keyLE e.attachList)
  have hlen := hperm.length_eq
  have hmain := findUnique_none_eq t (ItemStore.itemsInMapOrder e)
  rcases hflt : (ItemStore.itemsInMapOrder e).filter (fun p => DynClass.isA p.2.cls t)
      with _ | ⟨a, _ | ⟨b, l3⟩⟩
  · rw [hflt] at hmain hlen
    simp only [List.map_nil, List.length_nil] at hmain hlen
    have hgi : ItemStore.getItem e t = .error .NotFound := by
      simp [ItemStore.getItem, hmain]
    exact ⟨fun h => by omega, fun _ => hgi, fun h => by omega⟩
  · rw [hflt] at hmain hlen
    simp only [List.map_cons, List.map_nil, List.length_cons, List.length_nil] at hmain hlen
    have hgi : ItemStore.getItem e t = .ok a.2 := by
      simp [ItemStore.getItem, hmain]
    have hamem : a ∈ (ItemStore.itemsInMapOrder e).filter
        (fun p => DynClass.isA p.2.cls t) := by
      rw [hflt]; exact List.mem_singleton.mpr rfl
    have hprop : DynClass.isA a.2.cls t = true := (List.mem_filter.mp hamem).2
    have hmemMap : a ∈ ItemStore.itemsInMapOrder e := (List.mem_filter.mp hamem).1
    have hmemAtt : a ∈ e.attachList :=
      (List.perm_insertionSort keyLE e.attachList).mem_iff.mp hmemMap
    refine ⟨fun h => by omega, fun h => by omega,
      fun _ => ⟨a.2, hgi, hprop, ⟨a.1, ?_⟩⟩⟩
    simpa using hmemAtt
  · rw [hflt] at hmain hlen
    simp only [List.map_cons, List.length_cons] at hmain hlen
    have hgi : ItemStore.getItem e t = .error .Ambiguous := by
      simp [ItemStore.getItem, hmain]
    exact ⟨fun _ => hgi, fun h => by omega, fun h => by omega⟩

/-! Helper lemmas for the operator update driver. -/

theorem any_congr_mem {α : Type} {l : List α} {f g : α → Bool}
    (h : ∀ x ∈ l, f x = g x) : l.any f = l.any g := by
  induction l with
  | nil => rfl
  | cons a tl ih =>
    simp only [List.any_cons, h a (List.mem_cons_self a tl),
      ih (fun x hx => h x (List.mem_cons_of_mem a hx))]

theorem runLoop_ran_eq (outputs : String → List String) (upd : String → Bool) :
    ∀ (l : List String) (d : String → Bool),
      l.Pairwise (fun a b => ∀ x, x ∈ outputs a → x ∉ outputs b) →
      (runLoop outputs upd l d).1 = l.filter (fun o => (outputs o).any d) := by
  intro l
  induction l with
  | nil => intro d _; rfl
  | cons o rest ih =>
    intro d hpw
    rcases List.pairwise_cons.mp hpw with ⟨hhead, htail⟩
    cases hd : (outputs o).any d
    · have hstep : runLoop outputs upd (o :: rest) d = runLoop outputs upd rest d := by
        simp [runLoop, hd]
      rw [hstep, List.filter_cons, if_neg (by simp [hd]), ih d htail]
    · set d2 : String → Bool :=
        if upd o then (fun x => if (outputs o).contains x then false else d x) else d with hd2
      have hstep : (runLoop outputs upd (o :: rest) d).1 =
          o :: (runLoop outputs upd rest d2).1 := by
        simp [runLoop, hd, hd2]
      have hsame : ∀ b ∈ rest, ((outputs b).any d2) = ((outputs b).any d) := by
        intro b hb
        apply any_congr_mem
        intro x hx
        have hnx : x ∉ outputs o := fun hmem => hhead b hb x hmem hx
        rw [hd2]
        cases upd o <;> simp [hnx]
      rw [hstep, List.filter_cons, if_pos (by simp [hd]), ih d2 htail,
        List.filter_congr (fun b hb => hsame b hb)]

/-- C1 counterexample: in the concrete graph `opGraphX`, operator `"/b"`
feeds operator `"/a"` through layer `"L1"`, yet `updateOperators` runs
`"/a"` before `"/b"` (the ascending-id order of the `items` map), so the run
sequence is not a topological order of the operator graph. -/
theorem C1_counterexample :
    (OpGraph.updateOperators opGraphX (fun _ => true)).1 = ["/a", "/b"] ∧
    OpGraph.feedsInto opGraphX "/b" "/a" = true ∧
    OpGraph.claimTopoOrdered opGraphX
      (OpGraph.updateOperators opGraphX (fun _ => true)).1 = false := by
  decide

/-- C1 (amended): `updateOperators` runs `update_all` exactly on the
operators whose outputs contain at least one layer that is dirty on entry
(provided distinct operators have disjoint output sets — spec invariant 5),
visiting all attached operators in ascending lexicographic unique-id order —
the `items` map's iteration order — rather than in topological order. -/
theorem C1_updateOperators_id_order (g : OpGraph) (upd : String → Bool)
    (hdisj : (g.opIds.insertionSort idLE).Pairwise
      (fun a b => ∀ x, x ∈ g.outputs a → x ∉ g.outputs b)) :
    (OpGraph.updateOperators g upd).1 =
      (g.opIds.insertionSort idLE).filter (fun o => (g.outputs o).any g.dirty) ∧
    (g.opIds.insertionSort idLE).Pairwise idLE ∧
    (g.opIds.insertionSort idLE).Perm g.opIds :=
  ⟨runLoop_ran_eq g.outputs upd _ g.dirty hdisj,
   List.sorted_insertionSort idLE g.opIds,
   List.perm_insertionSort idLE g.opIds⟩

/-- Witness for C1 at the concrete graph `opGraphX`: both operators have a
dirty output, so both are run, in id order. -/
theorem C1_updateOperators_id_order_witness :
    (OpGraph.updateOperators opGraphX (fun _ => true)).1 =
      (opGraphX.opIds.insertionSort idLE).filter
        (fun o => (opGraphX.outputs o).any opGraphX.dirty) ∧
    (opGraphX.opIds.insertionSort idLE).Pairwise idLE ∧
    (opGraphX.opIds.insertionSort idLE).Perm opGraphX.opIds :=
  C1_updateOperators_id_order opGraphX (fun _ => true) (by decide)

/-- Witness for C3 at concrete inputs: an empty store, a store with one
layer, and a store with two layers. -/
theorem C3_getItem_spec_witness :
    ItemStore.getItem ⟨[]⟩ DynClass.layer = .error .NotFound ∧
    (∃ x, ItemStore.getItem ⟨[("/a", ⟨.layer, "A"⟩)]⟩ DynClass.layer = .ok x ∧
      DynClass.isA x.cls .layer = true ∧
      ∃ id, (id, x) ∈ [("/a", (⟨.layer, "A"⟩ : EItem))]) ∧
    ItemStore.getItem ⟨[("/a", ⟨.layer, "A"⟩), ("/b", ⟨.layer, "B"⟩)]⟩ DynClass.layer =
      .error .Ambiguous :=
  ⟨(C3_getItem_spec ⟨[]⟩ .layer).2.1 (by decide),
   (C3_getItem_spec ⟨[("/a", ⟨.layer, "A"⟩)]⟩ .layer).2.2 (by decide),
   (C3_getItem_spec ⟨[("/a", ⟨.layer, "A"⟩), ("/b", ⟨.layer, "B"⟩)]⟩ .layer).1 (by decide)⟩

/-! Helper lemmas for the transform algebra. -/

theorem Transform.ext2 {a b : Transform} (h1 : a.R = b.R) (h2 : a.t = b.t) : a = b := by
  cases a; cases b; simp_all

theorem Transform.comp_assoc (a b c : Transform) :
    (a.comp b).comp c = a.comp (b.comp c) := by
  apply Transform.ext2
  · exact Matrix.mul_assoc a.R b.R c.R
  · show (a.R * b.R).mulVec c.t + (a.R.mulVec b.t + a.t) =
      a.R.mulVec (b.R.mulVec c.t + b.t) + a.t
    simp only [Matrix.mulVec_add, Matrix.mulVec_mulVec]
    abel

theorem Transform.id_comp (a : Transform) : Transform.id3.comp a = a := by
  apply Transform.ext2
  · exact one_mul a.R
  · show (1 : Mat3).mulVec a.t + 0 = a.t
    rw [Matrix.one_mulVec, add_zero]

theorem Transform.comp_id (a : Transform) : a.comp Transform.id3 = a := by
  apply Transform.ext2
  · exact mul_one a.R
  · show a.R.mulVec 0 + a.t = a.t
    rw [Matrix.mulVec_zero, zero_add]

theorem Transform.id3_rigid : Transform.id3.IsRigid := by
  show (1 : Mat3).transpose * 1 = 1
  rw [Matrix.transpose_one, one_mul]

theorem Transform.rigid_comp {a b : Transform} (ha : a.IsRigid) (hb : b.IsRigid) :
    (a.comp b).IsRigid := by
  show (a.R * b.R).transpose * (a.R * b.R) = 1
  rw [Matrix.transpose_mul, Matrix.mul_assoc, ← Matrix.mul_assoc a.R.transpose,
    show a.R.transpose * a.R = 1 from ha, one_mul,
    show b.R.transpose * b.R = 1 from hb]

theorem Transform.rigid_left_inv {a : Transform} (ha : a.IsRigid) :
    a.inv.comp a = Transform.id3 := by
  apply Transform.ext2
  · exact ha
  · show a.R.transpose.mulVec a.t + -(a.R.transpose.mulVec a.t) = 0
    exact add_neg_cancel _

theorem Transform.rigid_right_inv {a : Transform} (ha : a.IsRigid) :
    a.comp a.inv = Transform.id3 := by
  have haR : a.R * a.R.transpose = 1 := Matrix.mul_eq_one_comm.mpr ha
  apply Transform.ext2
  · exact haR
  · show a.R.mulVec (-(a.R.transpose.mulVec a.t)) + a.t = 0
    rw [Matrix.mulVec_neg, Matrix.mulVec_mulVec, haR, Matrix.one_mulVec]
    exact neg_add_cancel _

theorem Transform.inv_comp_eq {a b : Transform} (ha : a.IsRigid) :
    (a.comp b).inv = b.inv.comp a.inv := by
  have hcol : a.R.transpose.mulVec (a.R.mulVec b.t) = b.t := by
    rw [Matrix.mulVec_mulVec, show a.R.transpose * a.R = 1 from ha, Matrix.one_mulVec]
  apply Transform.ext2
  · exact Matrix.transpose_mul a.R b.R
  · show -((a.R * b.R).transpose.mulVec (a.R.mulVec b.t + a.t)) =
      b.R.transpose.mulVec (-(a.R.transpose.mulVec a.t)) + -(b.R.transpose.mulVec b.t)
    rw [Matrix.transpose_mul, ← Matrix.mulVec_mulVec]
    simp only [Matrix.mulVec_add, Matrix.mulVec_neg]
    rw [hcol]
    abel

/-! Helper lemmas for the frame tree. -/

theorem ancChain_fuel_eq (ft : FrameTree) (hwf : ft.WF) :
    ∀ x f g, x < ft.n → x < f → x < g → ancChain ft f x = ancChain ft g x := by
  intro x
  induction x using Nat.strong_induction_on with
  | _ x ih =>
    intro f g hxn hxf hxg
    obtain ⟨f2, rfl⟩ : ∃ f2, f = f2 + 1 := ⟨f - 1, by omega⟩
    obtain ⟨g2, rfl⟩ : ∃ g2, g = g2 + 1 := ⟨g - 1, by omega⟩
    cases hp : ft.parent x with
    | none => simp [ancChain, hp]
    | some p =>
      have hpx : p < x := hwf.parent_lt x hxn p hp
      have hpn : p < ft.n := lt_trans hpx hxn
      simp only [ancChain, hp]
      rw [ih p hpx f2 g2 hpn (by omega) (by omega)]

theorem upT_fuel_eq (ft : FrameTree) (hwf : ft.WF) :
    ∀ x f g a, x < ft.n → x < f → x < g → upT ft f x a = upT ft g x a := by
  intro x
  induction x using Nat.strong_induction_on with
  | _ x ih =>
    intro f g a hxn hxf hxg
    obtain ⟨f2, rfl⟩ : ∃ f2, f = f2 + 1 := ⟨f - 1, by omega⟩
    obtain ⟨g2, rfl⟩ : ∃ g2, g = g2 + 1 := ⟨g - 1, by omega⟩
    by_cases hxa : x = a
    · simp [upT, hxa]
    · cases hp : ft.parent x with
      | none => simp [upT, hxa, hp]
      | some p =>
        have hpx : p < x := hwf.parent_lt x hxn p hp
        have hpn : p < ft.n := lt_trans hpx hxn
        simp only [upT, hxa, if_false, hp]
        rw [ih p hpx f2 g2 a hpn (by omega) (by omega)]

theorem ancChain_mem_le (ft : FrameTree) (hwf : ft.WF) :
    ∀ f x a, x < ft.n → a ∈ ancChain ft f x → a ≤ x ∧ a < ft.n := by
  intro f
  induction f with
  | zero =>
    intro x a hxn ha
    have hax : a = x := by simpa [ancChain] using ha
    subst hax
    exact ⟨le_refl _, hxn⟩
  | succ f2 ih =>
    intro x a hxn ha
    cases hp : ft.parent x with
    | none =>
      have hax : a = x := by simpa [ancChain, hp] using ha
      subst hax
      exact ⟨le_refl _, hxn⟩
    | some p =>
      simp only [ancChain, hp] at ha
      rcases List.mem_cons.mp ha with h1 | h2
      · subst h1
        exact ⟨le_refl _, hxn⟩
      · have hpx : p < x := hwf.parent_lt x hxn p hp
        have hpn : p < ft.n := lt_trans hpx hxn
        obtain ⟨h3, h4⟩ := ih p a hpn h2
        exact ⟨le_trans h3 (le_of_lt hpx), h4⟩

theorem root_mem_ancChain (ft : FrameTree) (hwf : ft.WF) :
    ∀ f x, x < ft.n → x < f → 0 ∈ ancChain ft f x := by
  intro f
  induction f with
  | zero => intro x _ h; omega
  | succ f2 ih =>
    intro x hxn hxf
    cases hp : ft.parent x with
    | none =>
      have hx0 := hwf.none_is_root x hxn hp
      simp [ancChain, hp, hx0]
    | some p =>
      have hpx : p < x := hwf.parent_lt x hxn p hp
      have hpn : p < ft.n := lt_trans hpx hxn
      simp only [ancChain, hp]
      exact List.mem_cons_of_mem x (ih p hpn (by omega))

theorem upT_self (ft : FrameTree) (f x : Nat) : upT ft f x x = Transform.id3 := by
  cases f <;> simp [upT]

theorem upT_step (ft : FrameTree) (hwf : ft.WF) {x p a : Nat} (hxn : x < ft.n)
    (hxa : x ≠ a) (hp : ft.parent x = some p) :
    upT ft ft.n x a = (upT ft ft.n p a).comp (ft.transf x) := by
  have hpx : p < x := hwf.parent_lt x hxn p hp
  have hpn : p < ft.n := lt_trans hpx hxn
  obtain ⟨m, hm⟩ : ∃ m, ft.n = m + 1 := ⟨ft.n - 1, by omega⟩
  conv_lhs => rw [hm]
  simp only [upT]
  rw [if_neg hxa, hp]
  show (upT ft m p a).comp (ft.transf x) = (upT ft ft.n p a).comp (ft.transf x)
  rw [upT_fuel_eq ft hwf p m ft.n a hpn (by omega) (by omega)]

theorem upT_rigid (ft : FrameTree) (hwf : ft.WF) :
    ∀ f x a, x < ft.n → (upT ft f x a).IsRigid := by
  intro f
  induction f with
  | zero => intro x a _; exact Transform.id3_rigid
  | succ f2 ih =>
    intro x a hxn
    by_cases hxa : x = a
    · have he : upT ft (f2 + 1) x a = Transform.id3 := by simp [upT, hxa]
      rw [he]; exact Transform.id3_rigid
    · cases hp : ft.parent x with
      | none =>
        have he : upT ft (f2 + 1) x a = Transform.id3 := by simp [upT, hxa, hp]
        rw [he]; exact Transform.id3_rigid
      | some p =>
        have hpx : p < x := hwf.parent_lt x hxn p hp
        have hpn : p < ft.n := lt_trans hpx hxn
        have he : upT ft (f2 + 1) x a = (upT ft f2 p a).comp (ft.transf x) := by
          simp only [upT]
          rw [if_neg hxa, hp]
        rw [he]
        exact Transform.rigid_comp (ih p a hpn) (hwf.rigid x hxn)

theorem upT_factor (ft : FrameTree) (hwf : ft.WF) :
    ∀ x, x < ft.n → ∀ f, x < f → ∀ a, a ∈ ancChain ft f x →
      upT ft ft.n x 0 = (upT ft ft.n a 0).comp (upT ft ft.n x a) := by
  intro x
  induction x using Nat.strong_induction_on with
  | _ x ih =>
    intro hxn f hxf a ha
    obtain ⟨f2, rfl⟩ : ∃ f2, f = f2 + 1 := ⟨f - 1, by omega⟩
    cases hp : ft.parent x with
    | none =>
      have hax : a = x := by simpa [ancChain, hp] using ha
      subst hax
      rw [upT_self, Transform.comp_id]
    | some p =>
      simp only [ancChain, hp] at ha
      rcases List.mem_cons.mp ha with h1 | h2
      · subst h1
        rw [upT_self, Transform.comp_id]
      · have hpx : p < x := hwf.parent_lt x hxn p hp
        have hpn : p < ft.n := lt_trans hpx hxn
        have hap : a ≤ p := (ancChain_mem_le ft hwf f2 p a hpn h2).1
        have hxa : x ≠ a := by omega
        have hx0 : x ≠ 0 := by
          intro h0
          rw [h0, hwf.root_parent] at hp
          cases hp
        have hstep := upT_step ft hwf hxn hxa hp
        have hstep0 := upT_step ft hwf hxn hx0 hp
        have ihp := ih p hpx hpn f2 (by omega) a h2
        rw [hstep0, ihp, hstep, Transform.comp_assoc]

theorem relativeTransform_eq_root (ft : FrameTree) (hwf : ft.WF) (a b : Nat)
    (ha : a < ft.n) (hb : b < ft.n) :
    relativeTransform ft a b =
      some ((upT ft ft.n b 0).inv.comp (upT ft ft.n a 0)) := by
  have h0a : 0 ∈ ancChain ft ft.n a := root_mem_ancChain ft hwf ft.n a ha ha
  have h0b : 0 ∈ ancChain ft ft.n b := root_mem_ancChain ft hwf ft.n b hb hb
  rcases hfind : (ancChain ft ft.n a).find?
      (fun x => (ancChain ft ft.n b).contains x) with _ | l
  · exfalso
    have hnone := List.find?_eq_none.mp hfind 0 h0a
    exact hnone (by simpa using h0b)
  · have hlb : l ∈ ancChain ft ft.n b := by
      have hl := List.find?_some hfind
      simpa using hl
    have hla : l ∈ ancChain ft ft.n a := List.mem_of_find?_eq_some hfind
    have hln : l < ft.n := (ancChain_mem_le ft hwf ft.n b l hb hlb).2
    have hfa := upT_factor ft hwf a ha ft.n ha l hla
    have hfb := upT_factor ft hwf b hb ft.n hb l hlb
    have hrl : (upT ft ft.n l 0).IsRigid := upT_rigid ft hwf ft.n l 0 hln
    have heq : relativeTransform ft a b =
        some ((upT ft ft.n b l).inv.comp (upT ft ft.n a l)) := by
      simp only [relativeTransform, findLCA, hfind]
    rw [heq]
    congr 1
    rw [hfa, hfb, Transform.inv_comp_eq hrl, Transform.comp_assoc,
      ← Transform.comp_assoc (upT ft ft.n l 0).inv, Transform.rigid_left_inv hrl,
      Transform.id_comp]

/-- C5: in a well-formed frame tree, `relative_transform(a, a)` is the
identity transform; `relative_transform(a, b)` composed with
`relative_transform(b, c)` equals `relative_transform(a, c)` — exactly, in
the exact-arithmetic model standing in for floating point; and
`relative_transform(child, parent)` equals the child's stored transform. -/
theorem C5_relativeTransform_algebra (ft : FrameTree) (hwf : ft.WF)
    (a b c : Nat) (ha : a < ft.n) (hb : b < ft.n) (hc : c < ft.n) :
    relativeTransform ft a a = some Transform.id3 ∧
    (∃ tab tbc tac,
      relativeTransform ft a b = some tab ∧
      relativeTransform ft b c = some tbc ∧
      relativeTransform ft a c = some tac ∧
      tbc.comp tab = tac) ∧
    (∀ p, ft.parent a = some p → relativeTransform ft a p = some (ft.transf a)) := by
  refine ⟨?_, ?_, ?_⟩
  · rw [relativeTransform_eq_root ft hwf a a ha ha]
    congr 1
    exact Transform.rigid_left_inv (upT_rigid ft hwf ft.n a 0 ha)
  · refine ⟨_, _, _, relativeTransform_eq_root ft hwf a b ha hb,
      relativeTransform_eq_root ft hwf b c hb hc,
      relativeTransform_eq_root ft hwf a c ha hc, ?_⟩
    have hrigb : (upT ft ft.n b 0).IsRigid := upT_rigid ft hwf ft.n b 0 hb
    rw [Transform.comp_assoc, ← Transform.comp_assoc (upT ft ft.n b 0),
      Transform.rigid_right_inv hrigb, Transform.id_comp]
  · intro p hp
    have hpx : p < a := hwf.parent_lt a ha p hp
    have hpn : p < ft.n := lt_trans hpx ha
    have hx0 : a ≠ 0 := by
      intro h0
      rw [h0, hwf.root_parent] at hp
      cases hp
    rw [relativeTransform_eq_root ft hwf a p ha hpn]
    congr 1
    rw [upT_step ft hwf ha hx0 hp, ← Transform.comp_assoc,
      Transform.rigid_left_inv (upT_rigid ft hwf ft.n p 0 hpn), Transform.id_comp]

/-- The concrete chain `ft3` is a well-formed frame tree. -/
theorem ft3_wf : ft3.WF := by
  refine ⟨rfl, ?_, ?_, ?_⟩
  · intro x hx p hp
    have hx3 : x < 3 := hx
    interval_cases x <;> simp_all [ft3] <;> omega
  · intro x hx hp
    have hx3 : x < 3 := hx
    interval_cases x <;> simp_all [ft3]
  · intro x hx
    have hx3 : x < 3 := hx
    have hR : (ft3.transf x).R = 1 := by
      interval_cases x <;> rfl
    show (ft3.transf x).R.transpose * (ft3.transf x).R = 1
    rw [hR, Matrix.transpose_one, one_mul]

/-- Witness for C5 on the concrete chain `ft3` at frames `2, 1, 0`. -/
theorem C5_relativeTransform_algebra_witness :
    relativeTransform ft3 2 2 = some Transform.id3 ∧
    (∃ tab tbc tac,
      relativeTransform ft3 2 1 = some tab ∧
      relativeTransform ft3 1 0 = some tbc ∧
      relativeTransform ft3 2 0 = some tac ∧
      tbc.comp tab = tac) ∧
    (∀ p, ft3.parent 2 = some p → relativeTransform ft3 2 p = some (ft3.transf 2)) :=
  C5_relativeTransform_algebra ft3 ft3_wf 2 1 0 (by decide) (by decide) (by decide)

/-! Evaluation of the C9 chain. -/

theorem relC9_eval : relativeTransform ftC9 0 1 =
    some ⟨1, fun i => if i = 0 then -1 else 0⟩ := by
  have hfind : findLCA ftC9 0 1 = some 0 := by decide
  have heq : relativeTransform ftC9 0 1 =
      some ((upT ftC9 ftC9.n 1 0).inv.comp (upT ftC9 ftC9.n 0 0)) := by
    simp only [relativeTransform, hfind]
  rw [heq]
  have h1 : upT ftC9 ftC9.n 1 0 = ftC9.transf 1 := by
    show Transform.comp (upT ftC9 1 0 0) (ftC9.transf 1) = ftC9.transf 1
    rw [upT_self, Transform.id_comp]
  have h0 : upT ftC9 ftC9.n 0 0 = Transform.id3 := upT_self ftC9 ftC9.n 0
  rw [h0, h1, Transform.comp_id]
  congr 1
  apply Transform.ext2
  · show Matrix.transpose 1 = 1
    exact Matrix.transpose_one
  · show -(Matrix.mulVec (Matrix.transpose 1) (fun i => if i = 0 then 1 else 0)) =
      (fun i => if i = 0 then -1 else 0)
    rw [Matrix.transpose_one, Matrix.one_mulVec]
    funext i
    by_cases hi : i = 0 <;> simp [hi]

/-- C9: the one-argument overloads `Map::fromMap(p)` and `Map::toMap(p)`
return the same value — `fromMap` delegates to the two-argument `toMap`
with the root frame — and consequently the one-argument `fromMap` is not
the inverse of the one-argument `toMap`: on the concrete chain `ftC9` a
point maps to a different point after `toMap` followed by `fromMap`. -/
theorem C9_fromMap_delegates_toMap :
    (∀ (ft : FrameTree) (m : MapM) (p : Vec3), fromMapRoot ft m p = toMapRoot ft m p) ∧
    (∃ p q r : Vec3,
      toMapRoot ftC9 mC9 p = some q ∧ fromMapRoot ftC9 mC9 q = some r ∧ r ≠ p) := by
  constructor
  · intro ft m p
    rfl
  · refine ⟨0, fun i => if i = 0 then -1 else 0, fun i => if i = 0 then -2 else 0,
      ?_, ?_, ?_⟩
    · show toMapFrom ftC9 mC9 0 (rootNode ftC9 mC9.frame) = _
      have hroot : rootNode ftC9 mC9.frame = 0 := by decide
      rw [hroot]
      show (relativeTransform ftC9 0 1).map (fun tr => tr.apply 0) = _
      rw [relC9_eval]
      show some (Transform.apply _ 0) = _
      congr 1
      show Matrix.mulVec 1 0 + (fun i => if i = 0 then (-1 : ℚ) else 0) =
        (fun i => if i = 0 then -1 else 0)
      rw [Matrix.one_mulVec, zero_add]
    · show toMapFrom ftC9 mC9 (fun i => if i = 0 then -1 else 0)
          (rootNode ftC9 mC9.frame) = _
      have hroot : rootNode ftC9 mC9.frame = 0 := by decide
      rw [hroot]
      show (relativeTransform ftC9 0 1).map
          (fun tr => tr.apply (fun i => if i = 0 then -1 else 0)) = _
      rw [relC9_eval]
      show some (Transform.apply _ (fun i => if i = 0 then -1 else 0)) = _
      congr 1
      show (1 : Mat3).mulVec (fun i => if i = 0 then (-1 : ℚ) else 0) +
          (fun i => if i = 0 then (-1 : ℚ) else 0) =
        (fun i => if i = 0 then (-2 : ℚ) else 0)
      rw [Matrix.one_mulVec]
      funext i
      by_cases hi : i = 0 <;> simp [hi] <;> norm_num
    · intro hcontra
      have hval := congrFun hcontra 0
      norm_num at hval

end Envire
